import Mathlib

/-!
Shallow embedding of the archive validation & publish pipeline of
`src/modal/upload.py` (the `upload` endpoint of the lab-game-hosting repo).

Paths and other Python strings are embedded as `List Char`; payload bytes as
`List Nat`.  The external collaborators are embedded as explicit parameters:

* the zip parser's outcome is `Option (List RawEntry)` (`none` models
  `zipfile.BadZipFile` raised when opening the buffer);
* construction of the boto3/R2 store client is a Boolean `storeOk`
  (`False` models the `except` branches at lines 130-135);
* the object store's per-call behaviour is `putOk : Nat → Bool`, giving the
  outcome of the k-th `put_object` call (counting from 0); a `False` models
  `put_object` raising, which aborts the loop via the handler at line 186.

Each definition's doc comment points to the source lines it is translated
from.
-/

namespace GameUpload

/-- Python strings are embedded as lists of characters. -/
abbrev Path := List Char

/-- Payload bytes of one archive entry. -/
abbrev Bytes := List Nat

/-- One record of the parsed zip archive, as exposed by `zipfile`:
its `filename` and the bytes `zf.open(info).read()` would return. -/
structure RawEntry where
  filename : Path
  payload : Bytes
deriving DecidableEq

/-- Models Python `str.isalnum` for a single character.  CPython's
`isalnum` is membership in the Unicode categories Lu/Ll/Lt/Lm/Lo
(letters) or Nd/Nl/No (numerics).  The full Unicode table is not
reproduced here; the predicate is encoded exactly on the code-point
ranges relevant to this development (ASCII digits and letters, the
Latin-1 letter/numeric code points, Latin Extended-A/B and IPA
extensions, and the CJK Unified Ideographs block), and is `false`
outside them. -/
def pyIsAlnum (c : Char) : Bool :=
  let n := c.toNat
  decide ((48 ≤ n ∧ n ≤ 57) ∨ (65 ≤ n ∧ n ≤ 90) ∨ (97 ≤ n ∧ n ≤ 122) ∨
    n = 0xAA ∨ n = 0xB2 ∨ n = 0xB3 ∨ n = 0xB5 ∨ n = 0xB9 ∨ n = 0xBA ∨
    (0xC0 ≤ n ∧ n ≤ 0x2AF ∧ n ≠ 0xD7 ∧ n ≠ 0xF7) ∨
    (0x4E00 ≤ n ∧ n ≤ 0x9FFF))

/-- Sanitisation of one character of the game name, from line 74:
`c if c.isalnum() or c in "-_" else "_"`. -/
def sanitizeChar (c : Char) : Char :=
  if pyIsAlnum c || (c == '-' || c == '_') then c else '_'

/-- The name sanitiser of line 74:
`safe_game_name = "".join(c if c.isalnum() or c in "-_" else "_" for c in gameName)`. -/
def sanitize (name : Path) : Path :=
  name.map sanitizeChar

/-- Models Python `str.lower` character-wise.  CPython lowercases by
Unicode simple case mapping; every character the pipeline compares
case-insensitively (`index.html`, the extension table) is ASCII, and the
mapping is encoded exactly on the ASCII range and is the identity
elsewhere. -/
def pyLowerChar (c : Char) : Char :=
  if 65 ≤ c.toNat ∧ c.toNat ≤ 90 then Char.ofNat (c.toNat + 32) else c

/-- Models `path.lower()` (see `pyLowerChar`). -/
def pyLower (p : Path) : Path :=
  p.map pyLowerChar

/-- The filter of line 96: a name is kept iff it does not start with
`__MACOSX/`, does not start with `._`, and does not end with `/`. -/
def keepEntry (name : Path) : Bool :=
  !(("__MACOSX/".data).isPrefixOf name) && !(("._".data).isPrefixOf name)
    && !(("/".data).isSuffixOf name)

/-- `valid_files` of line 96: the archive's name list filtered by
`keepEntry`. -/
def validFilesOf (entries : List RawEntry) : List Path :=
  (entries.map (fun e => e.filename)).filter keepEntry

/-- The `has_index` check of lines 102-105:
`any(name.lower().endswith("index.html") for name in valid_files)`. -/
def hasIndex (validFiles : List Path) : Bool :=
  validFiles.any (fun n => ("index.html".data).isSuffixOf (pyLower n))

/-- `entry_path.split('/', 1)[0]`: the segment before the first `/`
(the whole path when it has no `/`). -/
def firstSeg (p : Path) : Path :=
  p.takeWhile (fun c => c != '/')

/-- `entry_path.split('/', 1)[1]`: everything after the first `/`
(meaningful only when `/` occurs in `p`). -/
def tailSeg (p : Path) : Path :=
  (p.dropWhile (fun c => c != '/')).tail

/-- Root stripping, lines 149-155.  Given the request's `valid_files`
and one entry path: if the path contains `/` and every valid file starts
with this path's first segment followed by `/`, the leading segment is
removed; a path that becomes empty makes the loop `continue` (`none`);
otherwise the path is returned unchanged. -/
def stripRoot (validFiles : List Path) (p : Path) : Option Path :=
  if '/' ∈ p then
    if validFiles.all (fun f => (firstSeg p ++ ['/']).isPrefixOf f) then
      if tailSeg p = [] then none else some (tailSeg p)
    else some p
  else some p

/-- Content-type resolution, lines 160-172: the default
`application/octet-stream` followed by the `endswith` chain on the
lowercased entry path. -/
def contentTypeOf (p : Path) : Path :=
  let l := pyLower p
  if (".html".data).isSuffixOf l then "text/html".data
  else if (".css".data).isSuffixOf l then "text/css".data
  else if (".js".data).isSuffixOf l then "application/javascript".data
  else if (".json".data).isSuffixOf l then "application/json".data
  else if (".wasm".data).isSuffixOf l then "application/wasm".data
  else if (".png".data).isSuffixOf l then "image/png".data
  else if (".jpg".data).isSuffixOf l then "image/jpeg".data
  else if (".jpeg".data).isSuffixOf l then "image/jpeg".data
  else if (".svg".data).isSuffixOf l then "image/svg+xml".data
  else if (".gif".data).isSuffixOf l then "image/gif".data
  else if (".ico".data).isSuffixOf l then "image/x-icon".data
  else "application/octet-stream".data

/-- One committed object-store write: the arguments of the `put_object`
call at lines 176-181 (the bucket comes from configuration and is the
same for every write of a run), together with the normalized
`entry_path` the key was built from, recorded for specification
purposes. -/
structure StoreWrite where
  key : Path
  contentType : Path
  payload : Bytes
  entryPath : Path
deriving DecidableEq

/-- Outcome of the upload loop of lines 139-188: either the loop ran to
completion with the final `uploaded_count` and the list of committed
writes in order, or an exception aborted it, leaving the writes
committed before the failure. -/
inductive LoopOutcome where
  | ok (uploadedCount : Nat) (writes : List StoreWrite)
  | failed (writes : List StoreWrite)
deriving DecidableEq

/-- The publish loop of lines 141-182, iterating the archive records in
order.  A record is skipped when it starts with `__MACOSX/` or `._` or
is a directory marker; note that `info.is_dir()` is
`self.filename[-1] == '/'` in CPython's `zipfile`, which raises
`IndexError` on an empty filename — the enclosing handler at line 186
then aborts the whole loop (the `.failed` branch below).  A surviving
record is root-stripped (a record stripped to the empty path makes the
loop `continue`), its content type resolved, and `put_object` called
with key `f"{safe_game_name}/{entry_path}"`; a raising `put_object`
likewise aborts the loop with the earlier writes committed. -/
def publishLoop (vf : List Path) (safe : Path) (putOk : Nat → Bool) :
    Nat → List RawEntry → LoopOutcome
  | count, [] => .ok count []
  | count, e :: rest =>
    if ("__MACOSX/".data).isPrefixOf e.filename || ("._".data).isPrefixOf e.filename then
      publishLoop vf safe putOk count rest
    else if e.filename = [] then
      .failed []
    else if ("/".data).isSuffixOf e.filename then
      publishLoop vf safe putOk count rest
    else
      match stripRoot vf e.filename with
      | none => publishLoop vf safe putOk count rest
      | some entryPath =>
        if putOk count then
          match publishLoop vf safe putOk (count + 1) rest with
          | .ok c ws =>
            .ok c (⟨safe ++ '/' :: entryPath, contentTypeOf entryPath, e.payload, entryPath⟩ :: ws)
          | .failed ws =>
            .failed (⟨safe ++ '/' :: entryPath, contentTypeOf entryPath, e.payload, entryPath⟩ :: ws)
        else .failed []

/-- The write the loop performs for one record when every store call
succeeds: `none` when the record is skipped by the loop's filter or by
root stripping. -/
def mkWrite (vf : List Path) (safe : Path) (e : RawEntry) : Option StoreWrite :=
  if keepEntry e.filename then
    match stripRoot vf e.filename with
    | none => none
    | some entryPath =>
      some ⟨safe ++ '/' :: entryPath, contentTypeOf entryPath, e.payload, entryPath⟩
  else none

/-- The writes a run would commit if every store call succeeded, in
archive order. -/
def plannedWrites (vf : List Path) (safe : Path) (entries : List RawEntry) : List StoreWrite :=
  entries.filterMap (mkWrite vf safe)

/-- The apostrophe character (used by the f-string at line 194). -/
def apos : Char := Char.ofNat 39

/-- Trailing-separator stripping of line 190:
`os.environ['PUBLIC_GAME_URL_BASE'].rstrip('/')`. -/
def pyRstripSlash (s : Path) : Path :=
  (s.reverse.dropWhile (fun c => c == '/')).reverse

/-- The public URL of line 190:
`f"{...rstrip('/')}/{safe_game_name}/index.html"`. -/
def gameUrl (base safe : Path) : Path :=
  pyRstripSlash base ++ '/' :: (safe ++ "/index.html".data)

/-- The success response of lines 193-198, embedded as the association
list of the returned dict (all four values are strings). -/
def successResponse (safe base : Path) : List (Path × Path) :=
  [("message".data, "Successfully uploaded game ".data ++ apos :: (safe ++ [apos, '.'])),
   ("gameName".data, safe),
   ("gameUrl".data, gameUrl base safe),
   ("status".data, "complete".data)]

/-- The value returned by the endpoint, one constructor per return site
of the embedded pipeline: missing/empty game name (lines 71-73), bad
zip container (lines 112-114), no usable files (lines 98-100), missing
index page (lines 106-110), store client construction failure (lines
130-135), an exception during the upload loop (lines 186-188), and the
success dict (lines 193-198). -/
inductive UploadResult where
  | missingName
  | badZip
  | noUsableFiles
  | missingIndex
  | storeUnavailable
  | processingFailed
  | success (response : List (Path × Path))
deriving DecidableEq

/-- The core pipeline of `upload` (lines 71-198), from the game-name
check onward, returning the response together with the object-store
writes committed during the run. -/
def upload (gameName baseUrl : Path) (zipData : Option (List RawEntry))
    (storeOk : Bool) (putOk : Nat → Bool) : UploadResult × List StoreWrite :=
  if gameName = [] then (.missingName, [])
  else
    match zipData with
    | none => (.badZip, [])
    | some entries =>
      let safe := sanitize gameName
      let vf := validFilesOf entries
      if vf = [] then (.noUsableFiles, [])
      else if hasIndex vf then
        if storeOk then
          match publishLoop vf safe putOk 0 entries with
          | .failed ws => (.processingFailed, ws)
          | .ok _ ws => (.success (successResponse safe baseUrl), ws)
        else (.storeUnavailable, [])
      else (.missingIndex, [])

/-- The final path segment of `p` (after the last `/`); a specification
notion used to state the macOS-metadata-file claims. -/
def finalSeg (p : Path) : Path :=
  (p.reverse.takeWhile (fun c => c != '/')).reverse

/-- The committed writes carried by a loop outcome. -/
def LoopOutcome.writes : LoopOutcome → List StoreWrite
  | .ok _ ws => ws
  | .failed ws => ws

/-! ## Helper lemmas -/

theorem keepEntry_eq_true_iff {name : Path} :
    keepEntry name = true ↔
      ¬ ("__MACOSX/".data <+: name) ∧ ¬ ("._".data <+: name) ∧ ¬ ("/".data <:+ name) := by
  simp [keepEntry, Bool.eq_false_iff, List.isPrefixOf_iff_prefix, List.isSuffixOf_iff_suffix,
    and_assoc]

/-! ## C1 -/

/-- C1, counterexample: the nested macOS-metadata file `game/._file` is
*not* removed by the filtering step — it survives `valid_files` and is
even published — although its final path segment starts with `._`. -/
theorem c1_counterexample :
    keepEntry ("game/._file".data) = true
    ∧ "._".data <+: finalSeg ("game/._file".data)
    ∧ upload ("g".data) ("http://b".data)
        (some [⟨"index.html".data, [0]⟩, ⟨"game/._file".data, [1]⟩]) true (fun _ => true) =
      (.success (successResponse ("g".data) ("http://b".data)),
       [⟨"g/index.html".data, "text/html".data, [0], "index.html".data⟩,
        ⟨"g/game/._file".data, "application/octet-stream".data, [1], "game/._file".data⟩]) := by
  decide

/-- C1, amended: the filtering step removes exactly the records whose
path starts with `__MACOSX/`, or whose whole path starts with `._` (so a
dot-underscore file is only dropped at the top level, not at deeper
nesting), or whose path ends with the separator (directory markers). -/
theorem c1_claim (name : Path) :
    keepEntry name = false ↔
      ("__MACOSX/".data <+: name ∨ "._".data <+: name ∨ "/".data <:+ name) := by
  rw [← Bool.not_eq_true, keepEntry_eq_true_iff]
  tauto

/-! ## C5 -/

/-- C5: `sanitize` is a total pure function keeping alphanumeric
characters and `-`/`_` and replacing every other character with `_`; it
is idempotent, maps the empty string to the empty string, maps a string
of only disallowed characters to underscores, maps `"My Game!"` to
`"My_Game_"`, and preserves length. -/
theorem c5_claim :
    (∀ x : Path, sanitize (sanitize x) = sanitize x)
    ∧ sanitize ("My Game!".data) = "My_Game_".data
    ∧ sanitize ([] : Path) = []
    ∧ sanitize ("!@# $%".data) = "______".data
    ∧ (∀ x : Path, (sanitize x).length = x.length)
    ∧ (∀ c : Char, (pyIsAlnum c || (c == '-' || c == '_')) = true → sanitizeChar c = c)
    ∧ (∀ c : Char, (pyIsAlnum c || (c == '-' || c == '_')) = false → sanitizeChar c = '_') := by
  refine ⟨?_, by decide, rfl, by decide, ?_, ?_, ?_⟩
  · intro x
    unfold sanitize
    rw [List.map_map]
    apply List.map_congr_left
    intro c _
    show sanitizeChar (sanitizeChar c) = sanitizeChar c
    by_cases h : (pyIsAlnum c || (c == '-' || c == '_')) = true
    · have hc : sanitizeChar c = c := by rw [sanitizeChar, if_pos h]
      rw [hc]
      exact hc
    · have hc : sanitizeChar c = '_' := by rw [sanitizeChar, if_neg h]
      rw [hc]
      decide
  · intro x
    exact List.length_map x sanitizeChar
  · intro c h
    rw [sanitizeChar, if_pos h]
  · intro c h
    rw [sanitizeChar]
    simp [h]

/-- C5, witness: the per-character conjuncts applied at concrete
characters. -/
theorem c5_witness :
    sanitizeChar 'A' = 'A' ∧ sanitizeChar '!' = '_' :=
  ⟨c5_claim.2.2.2.2.2.1 'A' (by decide), c5_claim.2.2.2.2.2.2 '!' (by decide)⟩

/-! ## C10 -/

/-- C10: the sanitizer's alphanumeric test is Unicode-aware — the
letters `é` and `日` are kept unchanged — and consequently the sanitized
bundle name, the storage keys it prefixes, and the public entry URL can
contain non-ASCII characters, as the concrete run shows. -/
theorem c10_claim :
    sanitizeChar 'é' = 'é'
    ∧ sanitizeChar '日' = '日'
    ∧ sanitize ("Gamé日".data) = "Gamé日".data
    ∧ upload ("Gamé日".data) ("http://b".data)
        (some [⟨"index.html".data, [0]⟩]) true (fun _ => true) =
      (.success (successResponse ("Gamé日".data) ("http://b".data)),
       [⟨"Gamé日/index.html".data, "text/html".data, [0], "index.html".data⟩])
    ∧ gameUrl ("http://b".data) ("Gamé日".data) = "http://b/Gamé日/index.html".data := by
  decide

/-! ## Suffix helpers (for C6) -/

theorem isSuffixOf_false_of {p s t : Path} (hs : s.isSuffixOf p = true)
    (hst : s.isSuffixOf t = false) (hts : t.isSuffixOf s = false) :
    t.isSuffixOf p = false := by
  rw [Bool.eq_false_iff] at hst hts ⊢
  intro ht
  rcases List.suffix_or_suffix_of_suffix (List.isSuffixOf_iff_suffix.mp hs)
      (List.isSuffixOf_iff_suffix.mp ht) with h | h
  · exact hst (List.isSuffixOf_iff_suffix.mpr h)
  · exact hts (List.isSuffixOf_iff_suffix.mpr h)

/-! ## C6 -/

/-- C6: content-type resolution is a total function of the entry path,
mapping each listed extension of the lowercased path to its MIME type
and every other path to `application/octet-stream`. -/
theorem c6_claim (p : Path) :
    (".html".data <:+ pyLower p → contentTypeOf p = "text/html".data)
    ∧ (".css".data <:+ pyLower p → contentTypeOf p = "text/css".data)
    ∧ (".js".data <:+ pyLower p → contentTypeOf p = "application/javascript".data)
    ∧ (".json".data <:+ pyLower p → contentTypeOf p = "application/json".data)
    ∧ (".wasm".data <:+ pyLower p → contentTypeOf p = "application/wasm".data)
    ∧ (".png".data <:+ pyLower p → contentTypeOf p = "image/png".data)
    ∧ (".jpg".data <:+ pyLower p → contentTypeOf p = "image/jpeg".data)
    ∧ (".jpeg".data <:+ pyLower p → contentTypeOf p = "image/jpeg".data)
    ∧ (".svg".data <:+ pyLower p → contentTypeOf p = "image/svg+xml".data)
    ∧ (".gif".data <:+ pyLower p → contentTypeOf p = "image/gif".data)
    ∧ (".ico".data <:+ pyLower p → contentTypeOf p = "image/x-icon".data)
    ∧ (¬ (".html".data <:+ pyLower p) → ¬ (".css".data <:+ pyLower p) →
       ¬ (".js".data <:+ pyLower p) → ¬ (".json".data <:+ pyLower p) →
       ¬ (".wasm".data <:+ pyLower p) → ¬ (".png".data <:+ pyLower p) →
       ¬ (".jpg".data <:+ pyLower p) → ¬ (".jpeg".data <:+ pyLower p) →
       ¬ (".svg".data <:+ pyLower p) → ¬ (".gif".data <:+ pyLower p) →
       ¬ (".ico".data <:+ pyLower p) →
       contentTypeOf p = "application/octet-stream".data) := by
  have conv1 : ∀ s : Path, s <:+ pyLower p → s.isSuffixOf (pyLower p) = true :=
    fun s h => List.isSuffixOf_iff_suffix.mpr h
  have conv0 : ∀ s : Path, ¬ (s <:+ pyLower p) → s.isSuffixOf (pyLower p) = false :=
    fun s h => Bool.eq_false_iff.mpr fun hb => h (List.isSuffixOf_iff_suffix.mp hb)
  refine ⟨?_, ?_, ?_, ?_, ?_, ?_, ?_, ?_, ?_, ?_, ?_, ?_⟩
  · intro h
    simp [contentTypeOf, conv1 _ h]
  · intro h
    have hb := conv1 _ h
    simp [contentTypeOf, hb, isSuffixOf_false_of hb (by decide) (by decide) (t := ".html".data)]
  · intro h
    have hb := conv1 _ h
    simp [contentTypeOf, hb,
      isSuffixOf_false_of hb (by decide) (by decide) (t := ".html".data),
      isSuffixOf_false_of hb (by decide) (by decide) (t := ".css".data)]
  · intro h
    have hb := conv1 _ h
    simp [contentTypeOf, hb,
      isSuffixOf_false_of hb (by decide) (by decide) (t := ".html".data),
      isSuffixOf_false_of hb (by decide) (by decide) (t := ".css".data),
      isSuffixOf_false_of hb (by decide) (by decide) (t := ".js".data)]
  · intro h
    have hb := conv1 _ h
    simp [contentTypeOf, hb,
      isSuffixOf_false_of hb (by decide) (by decide) (t := ".html".data),
      isSuffixOf_false_of hb (by decide) (by decide) (t := ".css".data),
      isSuffixOf_false_of hb (by decide) (by decide) (t := ".js".data),
      isSuffixOf_false_of hb (by decide) (by decide) (t := ".json".data)]
  · intro h
    have hb := conv1 _ h
    simp [contentTypeOf, hb,
      isSuffixOf_false_of hb (by decide) (by decide) (t := ".html".data),
      isSuffixOf_false_of hb (by decide) (by decide) (t := ".css".data),
      isSuffixOf_false_of hb (by decide) (by decide) (t := ".js".data),
      isSuffixOf_false_of hb (by decide) (by decide) (t := ".json".data),
      isSuffixOf_false_of hb (by decide) (by decide) (t := ".wasm".data)]
  · intro h
    have hb := conv1 _ h
    simp [contentTypeOf, hb,
      isSuffixOf_false_of hb (by decide) (by decide) (t := ".html".data),
      isSuffixOf_false_of hb (by decide) (by decide) (t := ".css".data),
      isSuffixOf_false_of hb (by decide) (by decide) (t := ".js".data),
      isSuffixOf_false_of hb (by decide) (by decide) (t := ".json".data),
      isSuffixOf_false_of hb (by decide) (by decide) (t := ".wasm".data),
      isSuffixOf_false_of hb (by decide) (by decide) (t := ".png".data)]
  · intro h
    have hb := conv1 _ h
    simp [contentTypeOf, hb,
      isSuffixOf_false_of hb (by decide) (by decide) (t := ".html".data),
      isSuffixOf_false_of hb (by decide) (by decide) (t := ".css".data),
      isSuffixOf_false_of hb (by decide) (by decide) (t := ".js".data),
      isSuffixOf_false_of hb (by decide) (by decide) (t := ".json".data),
      isSuffixOf_false_of hb (by decide) (by decide) (t := ".wasm".data),
      isSuffixOf_false_of hb (by decide) (by decide) (t := ".png".data),
      isSuffixOf_false_of hb (by decide) (by decide) (t := ".jpg".data)]
  · intro h
    have hb := conv1 _ h
    simp [contentTypeOf, hb,
      isSuffixOf_false_of hb (by decide) (by decide) (t := ".html".data),
      isSuffixOf_false_of hb (by decide) (by decide) (t := ".css".data),
      isSuffixOf_false_of hb (by decide) (by decide) (t := ".js".data),
      isSuffixOf_false_of hb (by decide) (by decide) (t := ".json".data),
      isSuffixOf_false_of hb (by decide) (by decide) (t := ".wasm".data),
      isSuffixOf_false_of hb (by decide) (by decide) (t := ".png".data),
      isSuffixOf_false_of hb (by decide) (by decide) (t := ".jpg".data),
      isSuffixOf_false_of hb (by decide) (by decide) (t := ".jpeg".data)]
  · intro h
    have hb := conv1 _ h
    simp [contentTypeOf, hb,
      isSuffixOf_false_of hb (by decide) (by decide) (t := ".html".data),
      isSuffixOf_false_of hb (by decide) (by decide) (t := ".css".data),
      isSuffixOf_false_of hb (by decide) (by decide) (t := ".js".data),
      isSuffixOf_false_of hb (by decide) (by decide) (t := ".json".data),
      isSuffixOf_false_of hb (by decide) (by decide) (t := ".wasm".data),
      isSuffixOf_false_of hb (by decide) (by decide) (t := ".png".data),
      isSuffixOf_false_of hb (by decide) (by decide) (t := ".jpg".data),
      isSuffixOf_false_of hb (by decide) (by decide) (t := ".jpeg".data),
      isSuffixOf_false_of hb (by decide) (by decide) (t := ".svg".data)]
  · intro h
    have hb := conv1 _ h
    simp [contentTypeOf, hb,
      isSuffixOf_false_of hb (by decide) (by decide) (t := ".html".data),
      isSuffixOf_false_of hb (by decide) (by decide) (t := ".css".data),
      isSuffixOf_false_of hb (by decide) (by decide) (t := ".js".data),
      isSuffixOf_false_of hb (by decide) (by decide) (t := ".json".data),
      isSuffixOf_false_of hb (by decide) (by decide) (t := ".wasm".data),
      isSuffixOf_false_of hb (by decide) (by decide) (t := ".png".data),
      isSuffixOf_false_of hb (by decide) (by decide) (t := ".jpg".data),
      isSuffixOf_false_of hb (by decide) (by decide) (t := ".jpeg".data),
      isSuffixOf_false_of hb (by decide) (by decide) (t := ".svg".data),
      isSuffixOf_false_of hb (by decide) (by decide) (t := ".gif".data)]
  · intro h1 h2 h3 h4 h5 h6 h7 h8 h9 h10 h11
    simp [contentTypeOf, conv0 _ h1, conv0 _ h2, conv0 _ h3, conv0 _ h4, conv0 _ h5,
      conv0 _ h6, conv0 _ h7, conv0 _ h8, conv0 _ h9, conv0 _ h10, conv0 _ h11]

/-- C6, witness: the theorem applied across the extension table. -/
theorem c6_witness :
    contentTypeOf ("a.html".data) = "text/html".data
    ∧ contentTypeOf ("a.css".data) = "text/css".data
    ∧ contentTypeOf ("a.js".data) = "application/javascript".data
    ∧ contentTypeOf ("a.json".data) = "application/json".data
    ∧ contentTypeOf ("a.wasm".data) = "application/wasm".data
    ∧ contentTypeOf ("a.png".data) = "image/png".data
    ∧ contentTypeOf ("a.JPG".data) = "image/jpeg".data
    ∧ contentTypeOf ("a.jpeg".data) = "image/jpeg".data
    ∧ contentTypeOf ("a.svg".data) = "image/svg+xml".data
    ∧ contentTypeOf ("a.gif".data) = "image/gif".data
    ∧ contentTypeOf ("a.ico".data) = "image/x-icon".data
    ∧ contentTypeOf ("a.txt".data) = "application/octet-stream".data :=
  ⟨(c6_claim ("a.html".data)).1 (by decide),
   (c6_claim ("a.css".data)).2.1 (by decide),
   (c6_claim ("a.js".data)).2.2.1 (by decide),
   (c6_claim ("a.json".data)).2.2.2.1 (by decide),
   (c6_claim ("a.wasm".data)).2.2.2.2.1 (by decide),
   (c6_claim ("a.png".data)).2.2.2.2.2.1 (by decide),
   (c6_claim ("a.JPG".data)).2.2.2.2.2.2.1 (by decide),
   (c6_claim ("a.jpeg".data)).2.2.2.2.2.2.2.1 (by decide),
   (c6_claim ("a.svg".data)).2.2.2.2.2.2.2.2.1 (by decide),
   (c6_claim ("a.gif".data)).2.2.2.2.2.2.2.2.2.1 (by decide),
   (c6_claim ("a.ico".data)).2.2.2.2.2.2.2.2.2.2.1 (by decide),
   (c6_claim ("a.txt".data)).2.2.2.2.2.2.2.2.2.2.2 (by decide) (by decide) (by decide)
     (by decide) (by decide) (by decide) (by decide) (by decide) (by decide) (by decide)
     (by decide)⟩

/-! ## Helpers for C7 -/

theorem mem_takeWhile_pred {q : Char → Bool} {l : List Char} {b : Char}
    (h : b ∈ l.takeWhile q) : q b = true := by
  induction l with
  | nil => simp [List.takeWhile] at h
  | cons c t ih =>
    rw [List.takeWhile_cons] at h
    by_cases hq : q c = true
    · rw [if_pos hq] at h
      rcases List.mem_cons.mp h with rfl | h2
      · exact hq
      · exact ih h2
    · rw [if_neg hq] at h
      simp at h

theorem dropWhile_head_not {q : Char → Bool} {l t : List Char} {c : Char}
    (h : l.dropWhile q = c :: t) : q c = false := by
  induction l with
  | nil => simp [List.dropWhile] at h
  | cons a l ih =>
    rw [List.dropWhile_cons] at h
    by_cases hq : q a = true
    · rw [if_pos hq] at h
      exact ih h
    · rw [if_neg hq] at h
      injection h with h1 _
      subst h1
      exact Bool.eq_false_iff.mpr hq

theorem pyRstripSlash_split (base : Path) :
    base = pyRstripSlash base ++
      List.replicate (base.reverse.takeWhile (fun c => c == '/')).length '/' := by
  conv_lhs => rw [← List.reverse_reverse base,
    ← List.takeWhile_append_dropWhile (fun c => c == '/') base.reverse]
  rw [List.reverse_append, pyRstripSlash]
  congr 1
  rw [List.eq_replicate_iff]
  refine ⟨List.length_reverse _, fun b hb => ?_⟩
  have := mem_takeWhile_pred (List.mem_reverse.mp hb)
  simpa using this

theorem pyRstripSlash_not_endsWith (base : Path) :
    ¬ ("/".data <:+ pyRstripSlash base) := by
  rintro ⟨s, hs⟩
  have hrev : base.reverse.dropWhile (fun c => c == '/') = '/' :: s.reverse := by
    have : (pyRstripSlash base).reverse = (s ++ "/".data).reverse := by rw [hs]
    rw [pyRstripSlash, List.reverse_reverse, List.reverse_append] at this
    simpa using this
  have := dropWhile_head_not hrev
  simp at this

/-! ## C7 -/

/-- C7: the entry URL equals the base URL with all trailing `/` stripped,
then `/`, the sanitised name, then `/index.html`: `pyRstripSlash`
removes exactly a maximal run of trailing separators (the remainder does
not end in a separator), URL building is total, and every success
response carries exactly this URL (its `gameUrl` field, inside
`successResponse` of the sanitised name). -/
theorem c7_claim (base safe : Path) :
    gameUrl base safe = pyRstripSlash base ++ "/".data ++ safe ++ "/index.html".data
    ∧ (∃ k, base = pyRstripSlash base ++ List.replicate k '/')
    ∧ ¬ ("/".data <:+ pyRstripSlash base)
    ∧ (∀ (gameName : Path) (zipData : Option (List RawEntry)) (storeOk : Bool)
        (putOk : Nat → Bool) (resp : List (Path × Path)) (ws : List StoreWrite),
        upload gameName base zipData storeOk putOk = (.success resp, ws) →
        resp = successResponse (sanitize gameName) base) := by
  refine ⟨?_, ⟨_, pyRstripSlash_split base⟩, pyRstripSlash_not_endsWith base, ?_⟩
  · simp [gameUrl, List.append_assoc]
  · intro gameName zipData storeOk putOk resp ws h
    rw [upload.eq_def] at h
    by_cases hn : gameName = []
    · rw [if_pos hn] at h
      exact absurd (congrArg Prod.fst h) (by simp)
    · rw [if_neg hn] at h
      match zipData with
      | none => exact absurd (congrArg Prod.fst h) (by simp)
      | some entries =>
        simp only at h
        by_cases hvf : validFilesOf entries = []
        · rw [if_pos hvf] at h
          exact absurd (congrArg Prod.fst h) (by simp)
        · rw [if_neg hvf] at h
          by_cases hidx : hasIndex (validFilesOf entries) = true
          · rw [if_pos hidx] at h
            cases storeOk with
            | false => exact absurd (congrArg Prod.fst h) (by simp)
            | true =>
              simp only [if_pos rfl] at h
              cases hl : publishLoop (validFilesOf entries) (sanitize gameName) putOk 0 entries with
              | failed ws2 =>
                rw [hl] at h
                exact absurd (congrArg Prod.fst h) (by simp)
              | ok c ws2 =>
                rw [hl] at h
                have := congrArg Prod.fst h
                simp only at this
                exact ((UploadResult.success.injEq _ _).mp this).symm
          · rw [if_neg hidx] at h
            exact absurd (congrArg Prod.fst h) (by simp)

/-- C7, witness: the URL-shape conjunct applied at a concrete success
run. -/
theorem c7_witness :
    [("message".data, "Successfully uploaded game ".data ++ apos :: ("g".data ++ [apos, '.'])),
     ("gameName".data, "g".data),
     ("gameUrl".data, "http://b/g/index.html".data),
     ("status".data, "complete".data)] =
      successResponse (sanitize ("g".data)) ("http://b".data) :=
  (c7_claim ("http://b".data) ("g".data)).2.2.2 ("g".data)
    (some [⟨"index.html".data, [0]⟩]) true (fun _ => true) _
    [⟨"g/index.html".data, "text/html".data, [0], "index.html".data⟩] (by decide)

/-! ## Helpers for C3: decomposition of a path at its first separator -/

theorem firstSeg_no_slash {p : Path} {c : Char} (h : c ∈ firstSeg p) : c ≠ '/' := by
  have := mem_takeWhile_pred h
  simpa using this

theorem dropWhile_slash_of_mem {p : Path} (h : '/' ∈ p) :
    p.dropWhile (fun c => c != '/') = '/' :: tailSeg p := by
  induction p with
  | nil => cases h
  | cons a t ih =>
    by_cases ha : a = '/'
    · subst ha
      simp [tailSeg, List.dropWhile_cons]
    · have hm : '/' ∈ t := by
        rcases List.mem_cons.mp h with h1 | h1
        · exact absurd h1.symm ha
        · exact h1
      have hq : (a != '/') = true := by simp [ha]
      have ht : tailSeg (a :: t) = tailSeg t := by
        simp [tailSeg, List.dropWhile_cons, hq]
      rw [List.dropWhile_cons, if_pos hq, ht]
      exact ih hm

theorem firstSeg_tailSeg_decomp {p : Path} (h : '/' ∈ p) :
    p = firstSeg p ++ '/' :: tailSeg p := by
  conv_lhs => rw [← List.takeWhile_append_dropWhile (fun c => c != '/') p]
  rw [dropWhile_slash_of_mem h]
  rfl

theorem tailSeg_ne_self {p : Path} (h : '/' ∈ p) : tailSeg p ≠ p := by
  intro he
  have hlen := congrArg List.length (firstSeg_tailSeg_decomp h)
  rw [he] at hlen
  simp [List.length_append] at hlen
  omega

theorem prefix_slash_mem {s f : Path} (h : s ++ ['/'] <+: f) : '/' ∈ f :=
  h.subset (List.mem_append.mpr (Or.inr (List.mem_singleton.mpr rfl)))

theorem firstSeg_append_slash (s t : Path) (hs : ∀ c ∈ s, c ≠ '/') :
    firstSeg (s ++ '/' :: t) = s := by
  induction s with
  | nil => simp [firstSeg, List.takeWhile_cons]
  | cons a s ih =>
    have ha : a ≠ '/' := hs a (by simp)
    rw [List.cons_append, firstSeg, List.takeWhile_cons, if_pos (by simp [ha])]
    have := ih (fun c hc => hs c (by simp [hc]))
    rw [firstSeg] at this
    rw [this]

theorem firstSeg_eq_of_prefix {s f : Path} (hs : ∀ c ∈ s, c ≠ '/') (h : s ++ ['/'] <+: f) :
    firstSeg f = s := by
  obtain ⟨t, ht⟩ := h
  have hf : f = s ++ '/' :: t := by rw [← ht]; simp
  rw [hf, firstSeg_append_slash s t hs]

theorem stripRoot_ne_self_iff {v : List Path} {p : Path} (hp : p ∈ v) :
    stripRoot v p ≠ some p ↔ ∀ f ∈ v, firstSeg p ++ ['/'] <+: f := by
  by_cases hsl : '/' ∈ p
  · rw [stripRoot, if_pos hsl]
    by_cases hall : ∀ f ∈ v, firstSeg p ++ ['/'] <+: f
    · have hb : (v.all fun f => (firstSeg p ++ ['/']).isPrefixOf f) = true := by
        rw [List.all_eq_true]
        intro f hf
        exact List.isPrefixOf_iff_prefix.mpr (hall f hf)
      rw [if_pos hb]
      refine iff_of_true ?_ hall
      by_cases ht : tailSeg p = []
      · rw [if_pos ht]
        simp
      · rw [if_neg ht]
        intro hcon
        exact tailSeg_ne_self hsl (Option.some.inj hcon)
    · have hb : (v.all fun f => (firstSeg p ++ ['/']).isPrefixOf f) = false := by
        rw [Bool.eq_false_iff]
        intro hbt
        exact hall fun f hf => List.isPrefixOf_iff_prefix.mp (List.all_eq_true.mp hbt f hf)
      rw [if_neg (Bool.eq_false_iff.mp hb)]
      exact iff_of_false (by simp) hall
  · rw [stripRoot, if_neg hsl]
    refine iff_of_false (by simp) ?_
    intro hall
    exact hsl (prefix_slash_mem (hall p hp))

theorem stripRoot_some_cases {v : List Path} {p q : Path} (h : stripRoot v p = some q) :
    q = p ∨ q ≠ [] := by
  rw [stripRoot] at h
  by_cases hsl : '/' ∈ p
  · rw [if_pos hsl] at h
    by_cases hall : (v.all fun f => (firstSeg p ++ ['/']).isPrefixOf f) = true
    · rw [if_pos hall] at h
      by_cases ht : tailSeg p = []
      · rw [if_pos ht] at h
        exact Option.noConfusion h
      · rw [if_neg ht] at h
        right
        rw [← Option.some.inj h]
        exact ht
    · rw [if_neg hall] at h
      left
      exact (Option.some.inj h).symm
  · rw [if_neg hsl] at h
    left
    exact (Option.some.inj h).symm

/-! ### Equation lemmas for the publish loop -/

theorem publishLoop_cons_meta {v : List Path} {safe : Path} {putOk : Nat → Bool}
    {count : Nat} {e : RawEntry} {rest : List RawEntry}
    (h1 : (("__MACOSX/".data).isPrefixOf e.filename
      || ("._".data).isPrefixOf e.filename) = true) :
    publishLoop v safe putOk count (e :: rest) = publishLoop v safe putOk count rest := by
  rw [publishLoop, if_pos h1]

theorem publishLoop_cons_emptyName {v : List Path} {safe : Path} {putOk : Nat → Bool}
    {count : Nat} {e : RawEntry} {rest : List RawEntry}
    (h1 : (("__MACOSX/".data).isPrefixOf e.filename
      || ("._".data).isPrefixOf e.filename) = false)
    (h2 : e.filename = []) :
    publishLoop v safe putOk count (e :: rest) = .failed [] := by
  rw [publishLoop, if_neg (Bool.eq_false_iff.mp h1), if_pos h2]

theorem publishLoop_cons_dirMarker {v : List Path} {safe : Path} {putOk : Nat → Bool}
    {count : Nat} {e : RawEntry} {rest : List RawEntry}
    (h1 : (("__MACOSX/".data).isPrefixOf e.filename
      || ("._".data).isPrefixOf e.filename) = false)
    (h2 : e.filename ≠ [])
    (h3 : ("/".data).isSuffixOf e.filename = true) :
    publishLoop v safe putOk count (e :: rest) = publishLoop v safe putOk count rest := by
  rw [publishLoop, if_neg (Bool.eq_false_iff.mp h1), if_neg h2, if_pos h3]

theorem publishLoop_cons_dropped {v : List Path} {safe : Path} {putOk : Nat → Bool}
    {count : Nat} {e : RawEntry} {rest : List RawEntry}
    (h1 : (("__MACOSX/".data).isPrefixOf e.filename
      || ("._".data).isPrefixOf e.filename) = false)
    (h2 : e.filename ≠ [])
    (h3 : ("/".data).isSuffixOf e.filename = false)
    (hsr : stripRoot v e.filename = none) :
    publishLoop v safe putOk count (e :: rest) = publishLoop v safe putOk count rest := by
  rw [publishLoop, if_neg (Bool.eq_false_iff.mp h1), if_neg h2,
    if_neg (Bool.eq_false_iff.mp h3), hsr]

theorem publishLoop_cons_put {v : List Path} {safe : Path} {putOk : Nat → Bool}
    {count : Nat} {e : RawEntry} {rest : List RawEntry} {ep : Path}
    (h1 : (("__MACOSX/".data).isPrefixOf e.filename
      || ("._".data).isPrefixOf e.filename) = false)
    (h2 : e.filename ≠ [])
    (h3 : ("/".data).isSuffixOf e.filename = false)
    (hsr : stripRoot v e.filename = some ep)
    (h4 : putOk count = true) :
    publishLoop v safe putOk count (e :: rest) =
      match publishLoop v safe putOk (count + 1) rest with
      | .ok c ws => .ok c (⟨safe ++ '/' :: ep, contentTypeOf ep, e.payload, ep⟩ :: ws)
      | .failed ws => .failed (⟨safe ++ '/' :: ep, contentTypeOf ep, e.payload, ep⟩ :: ws) := by
  rw [publishLoop, if_neg (Bool.eq_false_iff.mp h1), if_neg h2,
    if_neg (Bool.eq_false_iff.mp h3), hsr]
  show (if putOk count = true then _ else _) = _
  rw [if_pos h4]

theorem publishLoop_cons_putFail {v : List Path} {safe : Path} {putOk : Nat → Bool}
    {count : Nat} {e : RawEntry} {rest : List RawEntry} {ep : Path}
    (h1 : (("__MACOSX/".data).isPrefixOf e.filename
      || ("._".data).isPrefixOf e.filename) = false)
    (h2 : e.filename ≠ [])
    (h3 : ("/".data).isSuffixOf e.filename = false)
    (hsr : stripRoot v e.filename = some ep)
    (h4 : putOk count = false) :
    publishLoop v safe putOk count (e :: rest) = .failed [] := by
  rw [publishLoop, if_neg (Bool.eq_false_iff.mp h1), if_neg h2,
    if_neg (Bool.eq_false_iff.mp h3), hsr]
  show (if putOk count = true then _ else _) = _
  rw [if_neg (Bool.eq_false_iff.mp h4)]

theorem publishLoop_writes_entryPath (v : List Path) (safe : Path) (putOk : Nat → Bool) :
    ∀ (es : List RawEntry) (count : Nat) (w : StoreWrite),
      w ∈ (publishLoop v safe putOk count es).writes → w.entryPath ≠ [] := by
  intro es
  induction es with
  | nil =>
    intro count w hw
    simp [publishLoop, LoopOutcome.writes] at hw
  | cons e rest ih =>
    intro count w hw
    by_cases h1 : (("__MACOSX/".data).isPrefixOf e.filename
        || ("._".data).isPrefixOf e.filename) = true
    · rw [publishLoop_cons_meta h1] at hw
      exact ih count w hw
    · have h1f : (("__MACOSX/".data).isPrefixOf e.filename
          || ("._".data).isPrefixOf e.filename) = false := Bool.eq_false_iff.mpr h1
      by_cases h2 : e.filename = []
      · rw [publishLoop_cons_emptyName h1f h2] at hw
        simp [LoopOutcome.writes] at hw
      · by_cases h3 : ("/".data).isSuffixOf e.filename = true
        · rw [publishLoop_cons_dirMarker h1f h2 h3] at hw
          exact ih count w hw
        · have h3f : ("/".data).isSuffixOf e.filename = false := Bool.eq_false_iff.mpr h3
          cases hsr : stripRoot v e.filename with
          | none =>
            rw [publishLoop_cons_dropped h1f h2 h3f hsr] at hw
            exact ih count w hw
          | some ep =>
            have hq : ep ≠ [] := by
              rcases stripRoot_some_cases hsr with heq | hne
              · rw [heq]
                exact h2
              · exact hne
            by_cases h4 : putOk count = true
            · rw [publishLoop_cons_put h1f h2 h3f hsr h4] at hw
              cases hrec : publishLoop v safe putOk (count + 1) rest with
              | ok c ws =>
                rw [hrec] at hw
                simp only [LoopOutcome.writes, List.mem_cons] at hw
                rcases hw with rfl | hw
                · exact hq
                · exact ih (count + 1) w (by rw [hrec]; exact hw)
              | failed ws =>
                rw [hrec] at hw
                simp only [LoopOutcome.writes, List.mem_cons] at hw
                rcases hw with rfl | hw
                · exact hq
                · exact ih (count + 1) w (by rw [hrec]; exact hw)
            · rw [publishLoop_cons_putFail h1f h2 h3f hsr (Bool.eq_false_iff.mpr h4)] at hw
              simp [LoopOutcome.writes] at hw

/-! ### Equation lemmas for the pipeline stages -/

theorem upload_eq_missingName {gameName baseUrl : Path} {zipData : Option (List RawEntry)}
    {storeOk : Bool} {putOk : Nat → Bool} (hn : gameName = []) :
    upload gameName baseUrl zipData storeOk putOk = (.missingName, []) := by
  rw [upload.eq_def, if_pos hn]

theorem upload_eq_badZip {gameName baseUrl : Path} {storeOk : Bool} {putOk : Nat → Bool}
    (hn : gameName ≠ []) :
    upload gameName baseUrl none storeOk putOk = (.badZip, []) := by
  rw [upload.eq_def, if_neg hn]

theorem upload_eq_noUsable {gameName baseUrl : Path} {entries : List RawEntry}
    {storeOk : Bool} {putOk : Nat → Bool} (hn : gameName ≠ [])
    (hvf : validFilesOf entries = []) :
    upload gameName baseUrl (some entries) storeOk putOk = (.noUsableFiles, []) := by
  rw [upload.eq_def, if_neg hn]
  simp only
  rw [if_pos hvf]

theorem upload_eq_missingIndex {gameName baseUrl : Path} {entries : List RawEntry}
    {storeOk : Bool} {putOk : Nat → Bool} (hn : gameName ≠ [])
    (hvf : validFilesOf entries ≠ []) (hidx : hasIndex (validFilesOf entries) = false) :
    upload gameName baseUrl (some entries) storeOk putOk = (.missingIndex, []) := by
  rw [upload.eq_def, if_neg hn]
  simp only
  rw [if_neg hvf, if_neg (Bool.eq_false_iff.mp hidx)]

theorem upload_eq_storeUnavailable {gameName baseUrl : Path} {entries : List RawEntry}
    {putOk : Nat → Bool} (hn : gameName ≠ [])
    (hvf : validFilesOf entries ≠ []) (hidx : hasIndex (validFilesOf entries) = true) :
    upload gameName baseUrl (some entries) false putOk = (.storeUnavailable, []) := by
  rw [upload.eq_def, if_neg hn]
  simp only
  rw [if_neg hvf, if_pos hidx, if_neg (by simp)]

theorem upload_eq_loop {gameName baseUrl : Path} {entries : List RawEntry}
    {putOk : Nat → Bool} (hn : gameName ≠ [])
    (hvf : validFilesOf entries ≠ []) (hidx : hasIndex (validFilesOf entries) = true) :
    upload gameName baseUrl (some entries) true putOk =
      match publishLoop (validFilesOf entries) (sanitize gameName) putOk 0 entries with
      | .failed ws => (.processingFailed, ws)
      | .ok _ ws => (.success (successResponse (sanitize gameName) baseUrl), ws) := by
  rw [upload.eq_def, if_neg hn]
  simp only
  rw [if_neg hvf, if_pos hidx, if_pos trivial]

theorem upload_writes_entryPath (gameName baseUrl : Path) (zipData : Option (List RawEntry))
    (storeOk : Bool) (putOk : Nat → Bool) :
    ∀ w ∈ (upload gameName baseUrl zipData storeOk putOk).2, w.entryPath ≠ [] := by
  intro w hw
  by_cases hn : gameName = []
  · rw [upload_eq_missingName hn] at hw
    simp at hw
  · match zipData with
    | none =>
      rw [upload_eq_badZip hn] at hw
      simp at hw
    | some entries =>
      by_cases hvf : validFilesOf entries = []
      · rw [upload_eq_noUsable hn hvf] at hw
        simp at hw
      · by_cases hidx : hasIndex (validFilesOf entries) = true
        · cases storeOk with
          | false =>
            rw [upload_eq_storeUnavailable hn hvf hidx] at hw
            simp at hw
          | true =>
            rw [upload_eq_loop hn hvf hidx] at hw
            cases hl : publishLoop (validFilesOf entries) (sanitize gameName) putOk 0 entries with
            | ok c ws =>
              rw [hl] at hw
              refine publishLoop_writes_entryPath (validFilesOf entries) (sanitize gameName)
                putOk entries 0 w ?_
              rw [hl]
              exact hw
            | failed ws =>
              rw [hl] at hw
              refine publishLoop_writes_entryPath (validFilesOf entries) (sanitize gameName)
                putOk entries 0 w ?_
              rw [hl]
              exact hw
        · rw [upload_eq_missingIndex hn hvf (Bool.eq_false_iff.mpr hidx)] at hw
          simp at hw

/-! ## C3 -/

/-- C3: an entry's leading first segment plus separator is stripped iff
every valid file starts with that first segment followed by `/`; when
some valid file has no separator, or two valid files have different
first segments, no entry is stripped; the stripping decision is uniform
across the entries of one request; and every committed write carries a
non-empty normalized entry path (an entry stripped to the empty path is
dropped, and an empty original filename aborts the loop before being
written). -/
theorem c3_claim (v : List Path) (p : Path) (hp : p ∈ v) :
    (stripRoot v p ≠ some p ↔ ∀ f ∈ v, firstSeg p ++ ['/'] <+: f)
    ∧ ((∃ f ∈ v, '/' ∉ f) → ∀ q ∈ v, stripRoot v q = some q)
    ∧ ((∃ f ∈ v, ∃ g ∈ v, firstSeg f ≠ firstSeg g) → ∀ q ∈ v, stripRoot v q = some q)
    ∧ (stripRoot v p ≠ some p → ∀ q ∈ v, stripRoot v q ≠ some q)
    ∧ (∀ (gameName baseUrl : Path) (zipData : Option (List RawEntry)) (storeOk : Bool)
        (putOk : Nat → Bool) (w : StoreWrite),
        w ∈ (upload gameName baseUrl zipData storeOk putOk).2 → w.entryPath ≠ []) := by
  refine ⟨stripRoot_ne_self_iff hp, ?_, ?_, ?_, ?_⟩
  · rintro ⟨f, hf, hfs⟩ q hq
    by_contra h
    exact hfs (prefix_slash_mem ((stripRoot_ne_self_iff hq).mp h f hf))
  · rintro ⟨f, hf, g, hg, hne⟩ q hq
    by_contra h
    have hall := (stripRoot_ne_self_iff hq).mp h
    have h1 := firstSeg_eq_of_prefix (fun c hc => firstSeg_no_slash hc) (hall f hf)
    have h2 := firstSeg_eq_of_prefix (fun c hc => firstSeg_no_slash hc) (hall g hg)
    exact hne (h1.trans h2.symm)
  · intro h q hq
    rw [stripRoot_ne_self_iff hq]
    have hall := (stripRoot_ne_self_iff hp).mp h
    have heq : firstSeg q = firstSeg p :=
      firstSeg_eq_of_prefix (fun c hc => firstSeg_no_slash hc) (hall q hq)
    rw [heq]
    exact hall
  · intro gameName baseUrl zipData storeOk putOk w hw
    exact upload_writes_entryPath gameName baseUrl zipData storeOk putOk w hw

/-- C3, witness: with the shared root `game`, the entry `game/index.html`
is stripped. -/
theorem c3_witness :
    stripRoot ["game/index.html".data, "game/main.js".data] ("game/index.html".data)
      ≠ some ("game/index.html".data) :=
  (c3_claim ["game/index.html".data, "game/main.js".data] ("game/index.html".data)
    (by decide)).1.mpr (by decide)

/-! ## The loop against its planned writes -/

theorem keepEntry_eq_false_of_meta {e : RawEntry}
    (h1 : (("__MACOSX/".data).isPrefixOf e.filename
      || ("._".data).isPrefixOf e.filename) = true) :
    keepEntry e.filename = false := by
  rcases Bool.or_eq_true_iff.mp h1 with h | h <;> simp [keepEntry, h]

theorem keepEntry_eq_false_of_dir {e : RawEntry}
    (h3 : ("/".data).isSuffixOf e.filename = true) :
    keepEntry e.filename = false := by
  simp [keepEntry, h3]

theorem keepEntry_eq_true_of {e : RawEntry}
    (h1 : (("__MACOSX/".data).isPrefixOf e.filename
      || ("._".data).isPrefixOf e.filename) = false)
    (h3 : ("/".data).isSuffixOf e.filename = false) :
    keepEntry e.filename = true := by
  rcases Bool.or_eq_false_iff.mp h1 with ⟨hp1, hp2⟩
  simp [keepEntry, hp1, hp2, h3]

theorem mkWrite_eq_none_of_keep_false (v : List Path) (safe : Path) {e : RawEntry}
    (hk : keepEntry e.filename = false) : mkWrite v safe e = none := by
  rw [mkWrite, if_neg (by simp [hk])]

theorem mkWrite_eq_none_of_dropped (v : List Path) (safe : Path) {e : RawEntry}
    (hk : keepEntry e.filename = true) (hsr : stripRoot v e.filename = none) :
    mkWrite v safe e = none := by
  rw [mkWrite, if_pos hk, hsr]

theorem mkWrite_eq_some (v : List Path) (safe : Path) {e : RawEntry} {ep : Path}
    (hk : keepEntry e.filename = true) (hsr : stripRoot v e.filename = some ep) :
    mkWrite v safe e =
      some ⟨safe ++ '/' :: ep, contentTypeOf ep, e.payload, ep⟩ := by
  rw [mkWrite, if_pos hk, hsr]

theorem publishLoop_all_ok (v : List Path) (safe : Path) (putOk : Nat → Bool) :
    ∀ (es : List RawEntry) (count : Nat), (∀ e ∈ es, e.filename ≠ []) →
      (∀ j, putOk j = true) →
      publishLoop v safe putOk count es =
        .ok (count + (plannedWrites v safe es).length) (plannedWrites v safe es) := by
  intro es
  induction es with
  | nil =>
    intro count _ _
    simp [publishLoop, plannedWrites]
  | cons e rest ih =>
    intro count hne hok
    have hrest : ∀ x ∈ rest, x.filename ≠ [] := fun x hx => hne x (List.mem_cons_of_mem _ hx)
    have he : e.filename ≠ [] := hne e (List.mem_cons_self _ _)
    by_cases h1 : (("__MACOSX/".data).isPrefixOf e.filename
        || ("._".data).isPrefixOf e.filename) = true
    · have hmw := mkWrite_eq_none_of_keep_false v safe
        (keepEntry_eq_false_of_meta h1)
      rw [publishLoop_cons_meta h1, ih count hrest hok]
      simp [plannedWrites, List.filterMap_cons, hmw]
    · have h1f : (("__MACOSX/".data).isPrefixOf e.filename
          || ("._".data).isPrefixOf e.filename) = false := Bool.eq_false_iff.mpr h1
      by_cases h3 : ("/".data).isSuffixOf e.filename = true
      · have hmw := mkWrite_eq_none_of_keep_false v safe
          (keepEntry_eq_false_of_dir h3)
        rw [publishLoop_cons_dirMarker h1f he h3, ih count hrest hok]
        simp [plannedWrites, List.filterMap_cons, hmw]
      · have h3f : ("/".data).isSuffixOf e.filename = false := Bool.eq_false_iff.mpr h3
        have hk := keepEntry_eq_true_of h1f h3f
        cases hsr : stripRoot v e.filename with
        | none =>
          have hmw := mkWrite_eq_none_of_dropped v safe hk hsr
          rw [publishLoop_cons_dropped h1f he h3f hsr, ih count hrest hok]
          simp [plannedWrites, List.filterMap_cons, hmw]
        | some ep =>
          have hmw := mkWrite_eq_some v safe hk hsr
          rw [publishLoop_cons_put h1f he h3f hsr (hok count), ih (count + 1) hrest hok]
          simp [plannedWrites, List.filterMap_cons, hmw]
          omega

theorem publishLoop_fail_at (v : List Path) (safe : Path) (putOk : Nat → Bool) :
    ∀ (es : List RawEntry) (count m : Nat), (∀ e ∈ es, e.filename ≠ []) →
      m < (plannedWrites v safe es).length →
      (∀ j, j < m → putOk (count + j) = true) →
      putOk (count + m) = false →
      publishLoop v safe putOk count es = .failed ((plannedWrites v safe es).take m) := by
  intro es
  induction es with
  | nil =>
    intro count m _ hm _ _
    simp [plannedWrites] at hm
  | cons e rest ih =>
    intro count m hne hm hok hfail
    have hrest : ∀ x ∈ rest, x.filename ≠ [] := fun x hx => hne x (List.mem_cons_of_mem _ hx)
    have he : e.filename ≠ [] := hne e (List.mem_cons_self _ _)
    by_cases h1 : (("__MACOSX/".data).isPrefixOf e.filename
        || ("._".data).isPrefixOf e.filename) = true
    · have hmw := mkWrite_eq_none_of_keep_false v safe
        (keepEntry_eq_false_of_meta h1)
      have hpw : plannedWrites v safe (e :: rest) = plannedWrites v safe rest := by
        simp [plannedWrites, List.filterMap_cons, hmw]
      rw [hpw] at hm ⊢
      rw [publishLoop_cons_meta h1]
      exact ih count m hrest hm hok hfail
    · have h1f : (("__MACOSX/".data).isPrefixOf e.filename
          || ("._".data).isPrefixOf e.filename) = false := Bool.eq_false_iff.mpr h1
      by_cases h3 : ("/".data).isSuffixOf e.filename = true
      · have hmw := mkWrite_eq_none_of_keep_false v safe
          (keepEntry_eq_false_of_dir h3)
        have hpw : plannedWrites v safe (e :: rest) = plannedWrites v safe rest := by
          simp [plannedWrites, List.filterMap_cons, hmw]
        rw [hpw] at hm ⊢
        rw [publishLoop_cons_dirMarker h1f he h3]
        exact ih count m hrest hm hok hfail
      · have h3f : ("/".data).isSuffixOf e.filename = false := Bool.eq_false_iff.mpr h3
        have hk := keepEntry_eq_true_of h1f h3f
        cases hsr : stripRoot v e.filename with
        | none =>
          have hmw := mkWrite_eq_none_of_dropped v safe hk hsr
          have hpw : plannedWrites v safe (e :: rest) = plannedWrites v safe rest := by
            simp [plannedWrites, List.filterMap_cons, hmw]
          rw [hpw] at hm ⊢
          rw [publishLoop_cons_dropped h1f he h3f hsr]
          exact ih count m hrest hm hok hfail
        | some ep =>
          have hmw := mkWrite_eq_some v safe hk hsr
          have hpw : plannedWrites v safe (e :: rest) =
              ⟨safe ++ '/' :: ep, contentTypeOf ep, e.payload, ep⟩ :: plannedWrites v safe rest := by
            simp [plannedWrites, List.filterMap_cons, hmw]
          cases m with
          | zero =>
            have h4 : putOk count = false := by simpa using hfail
            rw [publishLoop_cons_putFail h1f he h3f hsr h4]
            simp
          | succ n =>
            have h4 : putOk count = true := by simpa using hok 0 (Nat.succ_pos n)
            have hm2 : n < (plannedWrites v safe rest).length := by
              rw [hpw] at hm
              simp at hm
              omega
            have hok2 : ∀ j, j < n → putOk (count + 1 + j) = true := by
              intro j hj
              have hx := hok (j + 1) (by omega)
              have hy : count + (j + 1) = count + 1 + j := by omega
              rwa [hy] at hx
            have hfail2 : putOk (count + 1 + n) = false := by
              have hy : count + (n + 1) = count + 1 + n := by omega
              rwa [hy] at hfail
            rw [publishLoop_cons_put h1f he h3f hsr h4, ih (count + 1) n hrest hm2 hok2 hfail2,
              hpw, List.take_succ_cons]

/-! ## C4 -/

/-- C4, counterexample: a successful run that wrote two objects returns
a response whose fields are a message, the sanitised name, the URL and a
status; no field carries the object count (no `objectCount` key, and no
value equals `"2"`). -/
theorem c4_counterexample :
    upload ("g".data) ("http://b".data)
        (some [⟨"index.html".data, [0]⟩, ⟨"style.css".data, [1]⟩]) true (fun _ => true) =
      (.success [("message".data, "Successfully uploaded game ".data ++ apos :: ("g".data ++ [apos, '.'])),
        ("gameName".data, "g".data),
        ("gameUrl".data, "http://b/g/index.html".data),
        ("status".data, "complete".data)],
       [⟨"g/index.html".data, "text/html".data, [0], "index.html".data⟩,
        ⟨"g/style.css".data, "text/css".data, [1], "style.css".data⟩])
    ∧ (∀ kv ∈ successResponse ("g".data) ("http://b".data),
        kv.1 ≠ "objectCount".data ∧ kv.2 ≠ "2".data) := by
  decide

/-- C4, amended: on every successful run the core returns the response
dict with exactly the fields `message`, `gameName`, `gameUrl` and
`status` — the entry URL is included, but the count of objects written
is not part of the response (`uploaded_count` is only logged); the
writes performed are exactly the planned writes of the archive. -/
theorem c4_claim (gameName baseUrl : Path) (entries : List RawEntry) (putOk : Nat → Bool)
    (hn : gameName ≠ []) (hvf : validFilesOf entries ≠ [])
    (hidx : hasIndex (validFilesOf entries) = true)
    (hne : ∀ e ∈ entries, e.filename ≠ [])
    (hok : ∀ j, putOk j = true) :
    upload gameName baseUrl (some entries) true putOk =
      (.success (successResponse (sanitize gameName) baseUrl),
       plannedWrites (validFilesOf entries) (sanitize gameName) entries)
    ∧ (successResponse (sanitize gameName) baseUrl).map Prod.fst =
        ["message".data, "gameName".data, "gameUrl".data, "status".data]
    ∧ "objectCount".data ∉ (successResponse (sanitize gameName) baseUrl).map Prod.fst := by
  refine ⟨?_, rfl, ?_⟩
  · rw [upload_eq_loop hn hvf hidx,
      publishLoop_all_ok (validFilesOf entries) (sanitize gameName) putOk entries 0 hne hok]
  · have hkeys : (successResponse (sanitize gameName) baseUrl).map Prod.fst =
        ["message".data, "gameName".data, "gameUrl".data, "status".data] := rfl
    rw [hkeys]
    decide

/-- C4, witness: the amended theorem applied to a two-file archive. -/
theorem c4_witness :
    upload ("g".data) ("http://b".data)
        (some [⟨"index.html".data, [0]⟩, ⟨"style.css".data, [1]⟩]) true (fun _ => true) =
      (.success (successResponse (sanitize ("g".data)) ("http://b".data)),
       plannedWrites (validFilesOf [⟨"index.html".data, [0]⟩, ⟨"style.css".data, [1]⟩])
         (sanitize ("g".data)) [⟨"index.html".data, [0]⟩, ⟨"style.css".data, [1]⟩]) :=
  (c4_claim ("g".data) ("http://b".data) [⟨"index.html".data, [0]⟩, ⟨"style.css".data, [1]⟩]
    (fun _ => true) (by decide) (by decide) (by decide) (by decide) (fun j => rfl)).1

/-! ## C8 -/

/-- C8: when the k-th `put_object` call is the first to fail, the run
stops there with the processing-failure response, and the committed
store writes are exactly the first k-1 planned writes (nothing is
deleted, nothing later is written). -/
theorem c8_claim (gameName baseUrl : Path) (entries : List RawEntry) (putOk : Nat → Bool)
    (k : Nat) (hn : gameName ≠ []) (hvf : validFilesOf entries ≠ [])
    (hidx : hasIndex (validFilesOf entries) = true)
    (hne : ∀ e ∈ entries, e.filename ≠ [])
    (hk : 0 < k)
    (hlen : k ≤ (plannedWrites (validFilesOf entries) (sanitize gameName) entries).length)
    (hok : ∀ j, j < k - 1 → putOk j = true)
    (hfail : putOk (k - 1) = false) :
    upload gameName baseUrl (some entries) true putOk =
      (.processingFailed,
       (plannedWrites (validFilesOf entries) (sanitize gameName) entries).take (k - 1))
    ∧ ((plannedWrites (validFilesOf entries) (sanitize gameName) entries).take (k - 1)).length
        = k - 1 := by
  have hloop := publishLoop_fail_at (validFilesOf entries) (sanitize gameName) putOk entries
    0 (k - 1) hne (by omega) (fun j hj => by simpa using hok j hj) (by simpa using hfail)
  refine ⟨?_, ?_⟩
  · rw [upload_eq_loop hn hvf hidx, hloop]
  · rw [List.length_take]
    omega

/-- C8, witness: five publishable entries, third write fails, exactly
two objects committed. -/
theorem c8_witness :
    upload ("g".data) ("http://b".data)
        (some [⟨"a/x".data, [0]⟩, ⟨"b/index.html".data, [1]⟩, ⟨"c".data, [2]⟩,
          ⟨"d/e/f.png".data, [3]⟩, ⟨"g/h.css".data, [4]⟩]) true (fun j => decide (j < 2)) =
      (.processingFailed,
       (plannedWrites (validFilesOf [⟨"a/x".data, [0]⟩, ⟨"b/index.html".data, [1]⟩,
          ⟨"c".data, [2]⟩, ⟨"d/e/f.png".data, [3]⟩, ⟨"g/h.css".data, [4]⟩])
         (sanitize ("g".data))
         [⟨"a/x".data, [0]⟩, ⟨"b/index.html".data, [1]⟩, ⟨"c".data, [2]⟩,
          ⟨"d/e/f.png".data, [3]⟩, ⟨"g/h.css".data, [4]⟩]).take 2)
    ∧ ((plannedWrites (validFilesOf [⟨"a/x".data, [0]⟩, ⟨"b/index.html".data, [1]⟩,
          ⟨"c".data, [2]⟩, ⟨"d/e/f.png".data, [3]⟩, ⟨"g/h.css".data, [4]⟩])
         (sanitize ("g".data))
         [⟨"a/x".data, [0]⟩, ⟨"b/index.html".data, [1]⟩, ⟨"c".data, [2]⟩,
          ⟨"d/e/f.png".data, [3]⟩, ⟨"g/h.css".data, [4]⟩]).take 2).length = 2 :=
  c8_claim ("g".data) ("http://b".data)
    [⟨"a/x".data, [0]⟩, ⟨"b/index.html".data, [1]⟩, ⟨"c".data, [2]⟩,
     ⟨"d/e/f.png".data, [3]⟩, ⟨"g/h.css".data, [4]⟩] (fun j => decide (j < 2)) 3
    (by decide) (by decide) (by decide) (by decide) (by decide) (by decide)
    (fun j hj => decide_eq_true hj) (by decide)

/-! ## C2 -/

/-- C2, counterexample: an archive whose only entry is `myindex.html`
passes validation and is published, although no entry's final segment
equals `index.html`. -/
theorem c2_counterexample :
    upload ("g".data) ("http://b".data) (some [⟨"myindex.html".data, [7]⟩]) true (fun _ => true) =
      (.success (successResponse ("g".data) ("http://b".data)),
       [⟨"g/myindex.html".data, "text/html".data, [7], "myindex.html".data⟩])
    ∧ finalSeg ("myindex.html".data) ≠ "index.html".data := by
  decide

/-- C2, amended: after filtering, validation succeeds iff some usable
entry's lowercased path has the string `index.html` as a raw suffix —
at any nesting depth and not anchored to a path-segment boundary, so
`assets/index.html` passes and so does `myindex.html`; when no entry
matches, the run returns the missing-index error and nothing is
published. -/
theorem c2_claim (gameName baseUrl : Path) (entries : List RawEntry)
    (storeOk : Bool) (putOk : Nat → Bool)
    (hn : gameName ≠ []) (hvf : validFilesOf entries ≠ []) :
    upload gameName baseUrl (some entries) storeOk putOk = (.missingIndex, []) ↔
      ∀ f ∈ validFilesOf entries, ¬ ("index.html".data <:+ pyLower f) := by
  by_cases hidx : hasIndex (validFilesOf entries) = true
  · refine iff_of_false ?_ ?_
    · cases storeOk with
      | false =>
        rw [upload_eq_storeUnavailable hn hvf hidx]
        simp
      | true =>
        rw [upload_eq_loop hn hvf hidx]
        cases publishLoop (validFilesOf entries) (sanitize gameName) putOk 0 entries with
        | ok c ws => simp
        | failed ws => simp
    · rw [hasIndex, List.any_eq_true] at hidx
      obtain ⟨f, hf, hsfx⟩ := hidx
      intro hall
      exact hall f hf (List.isSuffixOf_iff_suffix.mp hsfx)
  · refine iff_of_true (upload_eq_missingIndex hn hvf (Bool.eq_false_iff.mpr hidx)) ?_
    intro f hf hsfx
    apply hidx
    rw [hasIndex, List.any_eq_true]
    exact ⟨f, hf, List.isSuffixOf_iff_suffix.mpr hsfx⟩

/-- C2, witness: an archive with no index-like entry is rejected with
the missing-index error and no writes. -/
theorem c2_witness :
    upload ("g".data) ("http://b".data) (some [⟨"a.txt".data, [0]⟩]) true (fun _ => true) =
      (.missingIndex, []) :=
  (c2_claim ("g".data) ("http://b".data) [⟨"a.txt".data, [0]⟩] true (fun _ => true)
    (by decide) (by decide)).mpr (by decide)

/-! ## C9 -/

/-- C9: no store write is attempted before every earlier stage has
succeeded — a malformed zip, an empty filtered file list, a failed
index validation, or a store client that cannot be constructed each end
the run with that stage's error and an empty write list. -/
theorem c9_claim (gameName baseUrl : Path) (entries : List RawEntry)
    (storeOk : Bool) (putOk : Nat → Bool) :
    (gameName ≠ [] → upload gameName baseUrl none storeOk putOk = (.badZip, []))
    ∧ (gameName ≠ [] → validFilesOf entries = [] →
        upload gameName baseUrl (some entries) storeOk putOk = (.noUsableFiles, []))
    ∧ (gameName ≠ [] → validFilesOf entries ≠ [] →
        hasIndex (validFilesOf entries) = false →
        upload gameName baseUrl (some entries) storeOk putOk = (.missingIndex, []))
    ∧ (gameName ≠ [] → validFilesOf entries ≠ [] →
        hasIndex (validFilesOf entries) = true →
        upload gameName baseUrl (some entries) false putOk = (.storeUnavailable, [])) :=
  ⟨fun hn => upload_eq_badZip hn,
   fun hn hvf => upload_eq_noUsable hn hvf,
   fun hn hvf hidx => upload_eq_missingIndex hn hvf hidx,
   fun hn hvf hidx => upload_eq_storeUnavailable hn hvf hidx⟩

/-- C9, witness: the four failure stages at concrete inputs, each with
zero writes. -/
theorem c9_witness :
    upload ("g".data) ("b".data) none true (fun _ => true) = (.badZip, [])
    ∧ upload ("g".data) ("b".data) (some [⟨"__MACOSX/x".data, [0]⟩, ⟨"dir/".data, [1]⟩])
        true (fun _ => true) = (.noUsableFiles, [])
    ∧ upload ("g".data) ("b".data) (some [⟨"a.txt".data, [0]⟩]) true (fun _ => true) =
        (.missingIndex, [])
    ∧ upload ("g".data) ("b".data) (some [⟨"index.html".data, [0]⟩]) false (fun _ => true) =
        (.storeUnavailable, []) :=
  ⟨(c9_claim ("g".data) ("b".data) [] true (fun _ => true)).1 (by decide),
   (c9_claim ("g".data) ("b".data) [⟨"__MACOSX/x".data, [0]⟩, ⟨"dir/".data, [1]⟩] true
     (fun _ => true)).2.1 (by decide) (by decide),
   (c9_claim ("g".data) ("b".data) [⟨"a.txt".data, [0]⟩] true (fun _ => true)).2.2.1
     (by decide) (by decide) (by decide),
   (c9_claim ("g".data) ("b".data) [⟨"index.html".data, [0]⟩] false (fun _ => true)).2.2.2
     (by decide) (by decide) (by decide)⟩

end GameUpload
